import Mathlib

/-!
Verification of the agreement-computation engine of the `visualize-themes`
repository.  The definitions below are shallow embeddings of the Python
sources `backend/mark_agreements.py`, `backend/calculate_irr.py` and
`backend/compare_agreement_columns.py`; pandas data frames are modelled as
lists of records, floats as exact rationals (`mkRat`), and NaN sentinels as
`Option` values.  Machine-checked theorems about these definitions settle
the specification claims.
-/

/-! ## Shared text utilities

Python string primitives used by the engine (`str.lower`, regex `\w+`
tokenisation, substring membership `a in b`, `str.strip`, whitespace
collapse).  These are re-implemented over character lists so that every
definition evaluates by kernel reduction.  Inputs handled by the engine are
ASCII, so `str.lower` is modelled as ASCII lowercasing. -/

/-- ASCII lowercasing of one character (models `str.lower` per character). -/
def lowerChar (c : Char) : Char :=
  if 'A' ≤ c ∧ c ≤ 'Z' then Char.ofNat (c.toNat + 32) else c

/-- ASCII lowercasing of a string (models `str.lower`). -/
def lowerStr (s : String) : String :=
  String.mk (s.data.map lowerChar)

/-- Word characters of the regex `\w` (ASCII range). -/
def isWordChar (c : Char) : Bool :=
  ('a' ≤ c ∧ c ≤ 'z') ∨ ('A' ≤ c ∧ c ≤ 'Z') ∨ ('0' ≤ c ∧ c ≤ '9') ∨ c = '_'

/-- Splits a character list into maximal runs of word characters; `cur` is
the (reversed) run currently being scanned.  Models `re.findall(r"\w+", s)`. -/
def tokenizeAux : List Char → List Char → List String
  | [], cur => if cur.isEmpty then [] else [String.mk cur.reverse]
  | c :: cs, cur =>
    if isWordChar c then tokenizeAux cs (c :: cur)
    else if cur.isEmpty then tokenizeAux cs []
    else String.mk cur.reverse :: tokenizeAux cs []

/-- Token set of a text: `set(re.findall(r"\w+", str(text).lower()))`
(`get_tokens` in `mark_agreements.py`). -/
def getTokens (s : String) : Finset String :=
  (tokenizeAux (lowerStr s).data []).toFinset

/-- Jaccard overlap of two token sets, `0.0` when either set is empty;
models the `overlap` computation in `mark_agreements.py` (exact rational in
place of float division `intersection / union`). -/
def overlap (a b : Finset String) : ℚ :=
  if a = ∅ ∨ b = ∅ then 0 else mkRat ((a ∩ b).card : ℤ) ((a ∪ b).card)

/-- Helper for `strIn`: does `n` occur as a contiguous block of `hay`? -/
def subAux (n : List Char) : List Char → Bool
  | [] => n.isEmpty
  | c :: cs => n.isPrefixOf (c :: cs) || subAux n cs

/-- Python substring membership `needle in hay`. -/
def strIn (needle hay : String) : Bool :=
  subAux needle.data hay.data

/-- Python `str.strip()` (whitespace from both ends). -/
def trimWs (s : String) : String :=
  String.mk (((s.data.dropWhile Char.isWhitespace).reverse.dropWhile
    Char.isWhitespace).reverse)

/-- Python `str.strip("; ")` (semicolons and spaces from both ends). -/
def stripSemiSpace (s : String) : String :=
  String.mk (((s.data.dropWhile fun c => c = ';' ∨ c = ' ').reverse.dropWhile
    fun c => c = ';' ∨ c = ' ').reverse)

/-- First occurrences of a list, in order of appearance (`pandas.unique`).
`seen` accumulates values already emitted. -/
def uniqueAux {α : Type} [DecidableEq α] (seen : List α) : List α → List α
  | [] => []
  | x :: xs => if x ∈ seen then uniqueAux seen xs else x :: uniqueAux (x :: seen) xs

/-- Deduplication keeping the first occurrence of each value, as
`pandas.unique` / `dict` key order do. -/
def uniqueFirst {α : Type} [DecidableEq α] (l : List α) : List α :=
  uniqueAux [] l

/-- Stable insertion (ascending by `key`) used to model stable ascending
sorts (`numpy.argsort` on small inputs, Python `sorted(key=len)`). -/
def insertAsc {α : Type} (key : α → ℕ) (x : α) : List α → List α
  | [] => [x]
  | y :: ys => if key x ≤ key y then x :: y :: ys else y :: insertAsc key x ys

/-- Stable sort ascending by `key`. -/
def sortByLen {α : Type} (key : α → ℕ) : List α → List α
  | [] => []
  | x :: xs => insertAsc key x (sortByLen key xs)

/-- All unordered pairs of a list in `itertools.combinations(l, 2)` order. -/
def pairsOf {α : Type} : List α → List (α × α)
  | [] => []
  | x :: xs => (xs.map fun y => (x, y)) ++ pairsOf xs

/-- Number of whitespace-separated words, `len(str(text).split())`
(`count_words` in `compare_agreement_columns.py`); the Boolean argument
records whether the previous character was inside a word. -/
def wordsAux : List Char → Bool → ℕ
  | [], _ => 0
  | c :: cs, inWord =>
    if c.isWhitespace then wordsAux cs false
    else if inWord then wordsAux cs true
    else 1 + wordsAux cs true

/-- Models `count_words` of `compare_agreement_columns.py`. -/
def countWords (s : String) : ℕ :=
  wordsAux s.data false

namespace MarkAgreements

/-- One row of the working data frame of `mark_agreements.py`
(`id` renumbering at the end of the script is not modelled: no claim
mentions row ids).  `tokens` is the `_tokens` cache column; `flags` the
per-coder 0/1 columns and `labels` the `{coder}_label` columns. -/
structure Row where
  p : String
  text : String
  code : String
  memo : String
  flags : List ℕ
  labels : List (Option String)
  tn : ℕ
  allAgree : ℕ
  ignored : ℕ
  tokens : Finset String
deriving DecidableEq, Inhabited

/-- Row lookup by position (`df.loc[idx]`). -/
def getRow (rows : List Row) (i : ℕ) : Row :=
  rows.getD i default

/-- Text length of the row at a position (`df["text"].str.len()`). -/
def lenAt (rows : List Row) (i : ℕ) : ℕ :=
  (getRow rows i).text.length

/-- Sum of the coder flag columns of one row (`row[coders].sum()`). -/
def sumFlags (r : Row) : ℕ :=
  r.flags.sum

/-- `stitch_text`: strictly the longer of the two texts
(`t1 if len(t1) >= len(t2) else t2`). -/
def stitch (t1 t2 : String) : String :=
  if t2.length ≤ t1.length then t1 else t2

/-- Group-processing order of both fuzzy passes:
`group_df["text"].str.len().argsort()[::-1]`, i.e. the reverse of a stable
ascending argsort by text length. -/
def sortIdx (rows : List Row) (poss : List ℕ) : List ℕ :=
  (sortByLen (lenAt rows) poss).reverse

/-- Coder-flag union of Pass 2 (`if df.loc[idx2, coder] == 1: df.loc[idx1, coder] = 1`). -/
def mergeFlags (f1 f2 : List ℕ) : List ℕ :=
  List.zipWith (fun a b => if b = 1 then 1 else a) f1 f2

/-- Label carry-over of Pass 2: inside the `idx2`-flag-is-1 branch, the
survivor's label is filled only when it was missing. -/
def mergeLabels (l1 : List (Option String)) (f2 : List ℕ)
    (l2 : List (Option String)) : List (Option String) :=
  List.zipWith
    (fun a bl =>
      if bl.1 = 1 then
        match a with
        | none => bl.2
        | some x => some x
      else a)
    l1 (f2.zip l2)

/-- Memo merge of Pass 2 (`if memo2 and memo2.strip() and memo2 not in memo1`). -/
def mergeMemo (m1 m2 : String) : String :=
  if m2 ≠ "" ∧ trimWs m2 ≠ "" ∧ strIn m2 m1 = false then
    stripSemiSpace (m1 ++ "; " ++ m2)
  else m1

/-- The Pass 2 merge of losing row `rj` into surviving row `ri`
(steps 1-5 of the fuzzy merge loop in `calculate_agreement`). -/
def mergeRows (ri rj : Row) : Row :=
  let t := stitch ri.text rj.text
  { ri with
    text := t
    tokens := getTokens t
    flags := mergeFlags ri.flags rj.flags
    labels := mergeLabels ri.labels rj.flags rj.labels
    tn := if ri.tn = 0 ∨ rj.tn = 0 then 0 else ri.tn
    memo := mergeMemo ri.memo rj.memo }

/-- One Pass 2 pair iteration: skip if either row was already merged away,
otherwise merge when the Jaccard overlap reaches the threshold and mark the
second row for deletion. -/
def pass2Step (τ : ℚ) (st : List Row × List ℕ) (pr : ℕ × ℕ) : List Row × List ℕ :=
  if pr.1 ∈ st.2 ∨ pr.2 ∈ st.2 then st
  else
    let ri := getRow st.1 pr.1
    let rj := getRow st.1 pr.2
    if τ ≤ overlap ri.tokens rj.tokens then
      (st.1.set pr.1 (mergeRows ri rj), pr.2 :: st.2)
    else st

/-- Pass 2 processing of one `(p, code)` group: iterate all pairs of the
length-sorted row positions. -/
def processGroup (τ : ℚ) (st : List Row × List ℕ) (poss : List ℕ) :
    List Row × List ℕ :=
  (pairsOf (sortIdx st.1 poss)).foldl (pass2Step τ) st

/-- Grouping key of Pass 2 (`df.groupby(["p", "code"])`). -/
def keyOf (r : Row) : String × String :=
  (r.p, r.code)

/-- Position lists of the `(p, code)` groups.  Groups are disjoint and
Pass 2 state updates are local to a group, so the iteration order of the
groups (pandas sorts keys) does not affect the result; first-appearance
order is used here. -/
def groupsOf (rows : List Row) : List (List ℕ) :=
  (uniqueFirst (rows.map keyOf)).map fun k =>
    (List.range rows.length).filter fun i => decide (keyOf (getRow rows i) = k)

/-- Pass 2 (same-code consolidation) of `calculate_agreement`: process every
group, then drop the rows marked for deletion (original order kept). -/
def pass2 (τ : ℚ) (rows : List Row) : List Row :=
  let st := (groupsOf rows).foldl (processGroup τ) (rows, [])
  (List.range rows.length).filterMap fun i =>
    if i ∈ st.2 then none else some (getRow st.1 i)

/-- One Pass 1 (cross-code alignment) pair iteration: when the overlap
reaches the threshold and the texts differ, both rows receive the stitched
text and a refreshed token cache; nothing is deleted and no other field is
touched. -/
def pass1Step (τ : ℚ) (R : List Row) (pr : ℕ × ℕ) : List Row :=
  let ri := getRow R pr.1
  let rj := getRow R pr.2
  if τ ≤ overlap ri.tokens rj.tokens then
    if ri.text ≠ rj.text then
      let t := stitch ri.text rj.text
      (R.set pr.1 { ri with text := t, tokens := getTokens t }).set pr.2
        { rj with text := t, tokens := getTokens t }
    else R
  else R

/-- Position lists of the participant-only groups of Pass 1
(`df.groupby(["p"])`). -/
def pGroupsOf (rows : List Row) : List (List ℕ) :=
  (uniqueFirst (rows.map fun r => r.p)).map fun k =>
    (List.range rows.length).filter fun i => decide ((getRow rows i).p = k)

/-- Pass 1 processing of one participant group. -/
def pass1Group (τ : ℚ) (R : List Row) (poss : List ℕ) : List Row :=
  (pairsOf (sortIdx R poss)).foldl (pass1Step τ) R

/-- Pass 1 (optional cross-code alignment) of `calculate_agreement`. -/
def pass1 (τ : ℚ) (rows : List Row) : List Row :=
  (pGroupsOf rows).foldl (pass1Group τ) rows

/-- Initial `{coder}_label` columns: the row's code where the coder's flag
is 1, otherwise missing. -/
def initLabels (n : ℕ) (r : Row) : List (Option String) :=
  (List.range n).map fun c => if r.flags.getD c 0 = 1 then some r.code else none

/-- Preparation steps of `calculate_agreement` before the passes: the
`_tokens` cache and the label columns are created. -/
def prep (n : ℕ) (rows : List Row) : List Row :=
  rows.map fun r => { r with tokens := getTokens r.text, labels := initLabels n r }

/-- Smart participant-id map of the True-Negative pruner: the first
(length-ascending) distinct id whose lowercase form is a prefix of `pid`'s
lowercase form, else `pid` itself. -/
def idMapOf (rows : List Row) (pid : String) : String :=
  let ids := uniqueFirst (rows.map fun r => r.p)
  let sorted := sortByLen String.length ids
  (sorted.find? fun s =>
    decide (s ≠ pid) && (lowerStr s).data.isPrefixOf (lowerStr pid).data).getD pid

/-- Phase 2.5 of `calculate_agreement`: drop every true-negative row whose
(non-empty) token cache overlaps some coded row of the same normalized
participant cluster at or above the threshold. -/
def pruneTN (τ : ℚ) (rows : List Row) : List Row :=
  rows.filter fun r =>
    !(r.tn == 1 && decide (r.tokens ≠ ∅) &&
      rows.any fun s =>
        s.tn == 0 && decide (idMapOf rows s.p = idMapOf rows r.p) &&
        decide (s.tokens ≠ ∅) && decide (τ ≤ overlap r.tokens s.tokens))

/-- Category prefix of a code: `x.split(":")[0].strip()`. -/
def takeUntil (ch : Char) : List Char → List Char
  | [] => []
  | c :: cs => if c = ch then [] else c :: takeUntil ch cs

/-- Category of a `"Category: Code"` string. -/
def catOf (code : String) : String :=
  trimWs (String.mk (takeUntil ':' code.data))

/-- Weighted-mode category presence: every coder has some flag set within
the row's `(p, text, category)` group (`transform("max")` on each coder
column, summed and compared with the coder count). -/
def catAgreeRow (n : ℕ) (rows : List Row) (r : Row) : Bool :=
  (List.range n).all fun c =>
    rows.any fun s =>
      s.p == r.p && s.text == r.text && catOf s.code == catOf r.code &&
        s.flags.getD c 0 == 1

/-- Phase 3 of `calculate_agreement`: exact `all_agree`, the optional
weighted/partial upgrade to 2, then the TN re-enforcement from the flag
sums. -/
def phase3 (mode n : ℕ) (rows : List Row) : List Row :=
  let r1 := rows.map fun r => { r with allAgree := if sumFlags r = n then 1 else 0 }
  let r2 :=
    if mode = 2 then
      r1.map fun r =>
        if r.allAgree = 0 ∧ r.tn = 0 ∧ catAgreeRow n r1 r = true then
          { r with allAgree := 2 }
        else r
    else r1
  r2.map fun r => { r with tn := if sumFlags r = 0 then 1 else 0 }

/-- Set of codes a coder applied anywhere on a `(p, text)` segment
(`coder_code_sets`). -/
def codeSetAt (rows : List Row) (p text : String) (c : ℕ) : Finset String :=
  ((rows.filter fun s =>
      s.p == p && s.text == text && s.flags.getD c 0 == 1).map fun s => s.code).toFinset

/-- Union of the code sets of every coder other than `c` on a segment. -/
def otherCodesAt (n : ℕ) (rows : List Row) (p text : String) (c : ℕ) : Finset String :=
  ((List.range n).filter fun oc => oc != c).foldl
    (fun acc oc => acc ∪ codeSetAt rows p text oc) ∅

/-- Conflict test shared by the Method A classifier and the omission
filter: some silent coder applied a code on this segment that nobody else
applied (their code set is not a subset of the union of the others'). -/
def isConflictRow (n : ℕ) (rows : List Row) (r : Row) : Bool :=
  (List.range n).any fun c =>
    r.flags.getD c 0 == 0 &&
      !(decide (codeSetAt rows r.p r.text c ⊆ otherCodesAt n rows r.p r.text c))

/-- Value of the `ignored` column for one row under the configured Strijbos
method (the column is first zeroed for every row). -/
def ignoredVal (method : String) (n : ℕ) (rows : List Row) (r : Row) : ℕ :=
  if method = "METHOD_A" then
    if r.tn = 1 then 1
    else if sumFlags r = n then 0
    else if isConflictRow n rows r then 0
    else 1
  else if method = "METHOD_B" then
    if r.tn = 1 then 1 else 0
  else 0

/-- The `ignored` computation of `calculate_agreement` (Strijbos methods);
code sets are read from the rows as they stand when the block runs. -/
def markIgnored (method : String) (n : ℕ) (rows : List Row) : List Row :=
  rows.map fun r => { r with ignored := ignoredVal method n rows r }

/-- Omission filter (`CALCULATE_SCORES_ON_MUTUAL_SEGMENTS_ONLY`): every row
is kept (`indices_to_keep` receives every index), and non-conflicting
partial rows get `all_agree` forced to 1; coder columns are not modified. -/
def mutualFilter (n : ℕ) (rows : List Row) : List Row :=
  rows.map fun r =>
    if sumFlags r = n then r
    else if isConflictRow n rows r then r
    else { r with allAgree := 1 }

/-- Configuration options consumed by `calculate_agreement`
(`WORDS_OVERLAP_PERCENTAGE`, `ALIGN_SEGMENTS_ACROSS_CODES`,
`CALCULATE_SCORES_ON_MUTUAL_SEGMENTS_ONLY`, `STRIJBOS_METHOD`,
`AGREEMENT_CALCULATION_MODE`). -/
structure Config where
  tau : ℚ
  alignAcrossCodes : Bool
  mutualOnly : Bool
  method : String
  mode : ℕ

/-- The full `calculate_agreement` pipeline of `mark_agreements.py` on `n`
registered coders (file I/O and the notes log are not modelled). -/
def markAgreements (cfg : Config) (n : ℕ) (rows : List Row) : List Row :=
  let r1 := prep n rows
  let r2 := if cfg.alignAcrossCodes then pass1 cfg.tau r1 else r1
  let r3 := pass2 cfg.tau r2
  let r4 := pruneTN cfg.tau r3
  let r5 := phase3 cfg.mode n r4
  let r6 := markIgnored cfg.method n r5
  if cfg.mutualOnly then mutualFilter n r6 else r6

/-- Stable insertion descending by `key` (ties keep input order). -/
def insertDesc {α : Type} (key : α → ℕ) (x : α) : List α → List α
  | [] => [x]
  | y :: ys => if key y ≤ key x then x :: y :: ys else y :: insertDesc key x ys

/-- Stable sort descending by `key` (ties keep input order). -/
def sortDescStable {α : Type} (key : α → ℕ) : List α → List α
  | [] => []
  | x :: xs => insertDesc key x (sortDescStable key xs)

/-- Modelled from the spec: the group-processing order the specification
claims for Pass 2 — descending text length with ties broken by original row
order, earlier original row first.  Used only to compare the claimed order
with the implemented `sortIdx`. -/
def claimedSortIdx (rows : List Row) (poss : List ℕ) : List ℕ :=
  sortDescStable (lenAt rows) poss

/-- Pass 2 with an arbitrary group-ordering function, used to compare the
implemented ordering with the spec-claimed one. -/
def pass2With (ord : List Row → List ℕ → List ℕ) (τ : ℚ) (rows : List Row) :
    List Row :=
  let st := (groupsOf rows).foldl
    (fun st poss => (pairsOf (ord st.1 poss)).foldl (pass2Step τ) st) (rows, [])
  (List.range rows.length).filterMap fun i =>
    if i ∈ st.2 then none else some (getRow st.1 i)

end MarkAgreements

namespace CalculateIRR

/-- Fuel-indexed Python `str.replace` over character lists (left-to-right,
non-overlapping); structural recursion on the fuel keeps the definition
kernel-evaluable, and fuel equal to the input length suffices because every
recursive call shortens the remaining text. -/
def replaceAllAux (pat rep : List Char) : ℕ → List Char → List Char
  | 0, s => s
  | Nat.succ fuel, s =>
    match s with
    | [] => []
    | c :: cs =>
      if pat ≠ [] ∧ pat.isPrefixOf (c :: cs) then
        rep ++ replaceAllAux pat rep fuel ((c :: cs).drop pat.length)
      else c :: replaceAllAux pat rep fuel cs

/-- Python `s.replace(pat, rep)`. -/
def replaceAll (s pat rep : String) : String :=
  String.mk (replaceAllAux pat.data rep.data s.data.length s.data)

/-- Mojibake / smart-quote replacement table of `clean_text`
(insertion order preserved). -/
def pyReplacements : List (String × String) :=
  [("â€™", "'"), ("â€œ", "\""), ("â€", "\""), ("â€“", "-"), ("â€”", "-"),
   ("â€˜", "'"), ("’", "'"), ("“", "\""), ("”", "\""), ("…", "...")]

/-- Collapse of whitespace runs to one space, `re.sub(r"\s+", " ", text)`;
the Boolean argument records whether the previous character was whitespace. -/
def collapseWsAux : List Char → Bool → List Char
  | [], _ => []
  | c :: cs, inWs =>
    if c.isWhitespace then
      if inWs then collapseWsAux cs true else ' ' :: collapseWsAux cs true
    else c :: collapseWsAux cs false

/-- `clean_text` of `calculate_irr.py`: replacement table, whitespace
collapse, strip. -/
def cleanText (s : String) : String :=
  trimWs (String.mk (collapseWsAux
    ((pyReplacements.foldl (fun acc pr => replaceAll acc pr.1 pr.2) s).data) false))

/-- One row of the wide unit matrix of `calculate_irr.py` (`labels` are not
yet created at this stage). -/
structure IRow where
  p : String
  text : String
  code : String
  memo : String
  flags : List ℕ
  allAgree : ℕ
  tn : ℕ
deriving DecidableEq, Inhabited

/-- Lowercased texts already coded for a participant
(`existing_text_map[p_id]`, built before the injection loop). -/
def codedTextsFor (rows : List IRow) (pId : String) : List String :=
  (rows.filter fun r => r.p == pId).map fun r => lowerStr r.text

/-- Coverage test of the injector: some existing coded text is a substring
of the normalized sentence or the sentence is a substring of it
(`existing in norm_sent or norm_sent in existing`). -/
def coveredBy (codedLower : List String) (norm : String) : Bool :=
  codedLower.any fun ex => strIn ex norm || strIn norm ex

/-- Per-sentence body of `load_transcripts_and_inject_negatives`: skip an
empty cleaned sentence, skip a covered one, otherwise build the injected
true-negative row (`code="None"`, `TN=1`, every coder flag 0). -/
def injectSentence (pId : String) (codedLower : List String) (nCoders : ℕ)
    (sentence : String) : Option IRow :=
  let cs := cleanText sentence
  if cs = "" then none
  else if coveredBy codedLower (lowerStr cs) then none
  else some
    { p := pId, text := cs, code := "None", memo := "", allAgree := 0, tn := 1,
      flags := List.replicate nCoders 0 }

/-- Rows the injector appends for one transcript file's sentence list. -/
def injectForFile (pId : String) (codedLower : List String) (nCoders : ℕ)
    (sentences : List String) : List IRow :=
  sentences.filterMap (injectSentence pId codedLower nCoders)

end CalculateIRR

namespace CompareAgreement

/-- One row of the statistics stage of `compare_agreement_columns.py` for
the two-coder case the adjusted-Kappa logic addresses; `f1`/`f2` are the
cleaned coder columns. -/
structure SRow where
  p : String
  text : String
  code : String
  f1 : ℕ
  f2 : ℕ
  tn : ℕ
deriving DecidableEq, Inhabited

/-- Group sum of the first coder column over the row's `(p, text)` segment
(`grouped[c].transform("sum")`). -/
def groupSum1 (rows : List SRow) (r : SRow) : ℕ :=
  ((rows.filter fun s => s.p == r.p && s.text == r.text).map fun s => s.f1).sum

/-- Group sum of the second coder column over the row's `(p, text)` segment. -/
def groupSum2 (rows : List SRow) (r : SRow) : ℕ :=
  ((rows.filter fun s => s.p == r.p && s.text == r.text).map fun s => s.f2).sum

/-- Strijbos method filter of the statistics stage: Method A keeps rows of
segments coded by every coder with `TN=0`; Method B keeps rows of segments
coded by some coder with `TN=0`; Method C keeps everything. -/
def methodFilter (method : String) (rows : List SRow) : List SRow :=
  if method = "METHOD_A" then
    rows.filter fun r =>
      decide (0 < groupSum1 rows r) && decide (0 < groupSum2 rows r) && r.tn == 0
  else if method = "METHOD_B" then
    rows.filter fun r =>
      (decide (0 < groupSum1 rows r) || decide (0 < groupSum2 rows r)) && r.tn == 0
  else rows

/-- Codes a coder applied on a `(p, text)` segment (statistics stage). -/
def codeSet1 (rows : List SRow) (r : SRow) : Finset String :=
  ((rows.filter fun s => s.p == r.p && s.text == r.text && s.f1 == 1).map
    fun s => s.code).toFinset

/-- Codes the second coder applied on a `(p, text)` segment. -/
def codeSet2 (rows : List SRow) (r : SRow) : Finset String :=
  ((rows.filter fun s => s.p == r.p && s.text == r.text && s.f2 == 1).map
    fun s => s.code).toFinset

/-- Conflict test of the statistics-stage mutual-segments block: a silent
coder applied a code on this segment nobody else applied. -/
def sIsConflict (rows : List SRow) (r : SRow) : Bool :=
  (r.f1 == 0 && !(decide (codeSet1 rows r ⊆ codeSet2 rows r))) ||
  (r.f2 == 0 && !(decide (codeSet2 rows r ⊆ codeSet1 rows r)))

/-- Mutual-segments block of the statistics stage: every row is kept, and
non-conflicting partial rows have both coder values forced to 1 in memory. -/
def mutualBlockStats (rows : List SRow) : List SRow :=
  rows.map fun r =>
    if r.f1 + r.f2 = 2 then r
    else if sIsConflict rows r then r
    else { r with f1 := 1, f2 := 1 }

/-- Working set the statistics are computed on, after the method filter and
the optional mutual-segments override. -/
def statsWorkingSet (method : String) (mutualOnly : Bool) (rows : List SRow) :
    List SRow :=
  let d := methodFilter method rows
  if mutualOnly then mutualBlockStats d else d

/-- Sum of the `TN` column (`df["TN"].sum()`). -/
def tnSum (rows : List SRow) : ℕ :=
  (rows.map fun r => r.tn).sum

/-- True-negative presence test of the statistics stage
(`has_injected_tns`). -/
def hasInjectedTNs (rows : List SRow) : Bool :=
  decide (0 < tnSum rows)

/-- Count of rows whose coder columns are all 0
(`(df[coder_cols] == 0).all(axis=1).sum()`). -/
def zeroRows (rows : List SRow) : ℕ :=
  rows.countP fun r => r.f1 == 0 && r.f2 == 0

/-- Transcript-based true-negative estimate (fallback when no TNs were
injected): coded word volume, margin deduction, silence estimate. -/
def estimateTN (df : List SRow) (transcripts : List String) (margin : ℚ) :
    Option ℕ :=
  let uniqueTexts := uniqueFirst (df.map fun r => r.text)
  let codedWords := (uniqueTexts.map countWords).sum
  let avgLen : ℕ := if uniqueTexts.length = 0 then 0 else codedWords / uniqueTexts.length
  let total0 := (transcripts.map countWords).sum
  let deduction : ℕ := if 0 < margin then ⌊(total0 : ℚ) * margin⌋₊ else 0
  let uncoded : ℤ := ((total0 - deduction : ℕ) : ℤ) - (codedWords : ℤ)
  if 0 < uncoded ∧ 0 < avgLen then some (uncoded.toNat / avgLen) else none

/-- Gate for virtual true-negative injection
(`should_inject_virtual_tns = method == "METHOD_C"`). -/
def shouldInjectVirtualTNs (method : String) : Bool :=
  method == "METHOD_C"

/-- Data the adjusted Cohen's Kappa is computed on, when it is computed at
all: the working set's two coder columns with the synthetic `(0, 0)` rows
appended (`combined_col1` / `combined_col2`); `none` when no adjusted Kappa
is produced. -/
def adjustedKappaCols (method : String) (mutualOnly : Bool) (rows0 : List SRow)
    (transcripts : List String) (margin : ℚ) : Option (List ℕ × List ℕ) :=
  let df := statsWorkingSet method mutualOnly rows0
  if hasInjectedTNs rows0 then
    if 0 < zeroRows df then none
    else if shouldInjectVirtualTNs method then
      let est := tnSum rows0
      some (df.map (fun r => r.f1) ++ List.replicate est 0,
            df.map (fun r => r.f2) ++ List.replicate est 0)
    else none
  else
    match estimateTN df transcripts margin with
    | some est =>
        if shouldInjectVirtualTNs method then
          some (df.map (fun r => r.f1) ++ List.replicate est 0,
                df.map (fun r => r.f2) ++ List.replicate est 0)
        else none
    | none => none

/-- Coder-column cleanup at the top of the statistics stage: drop every
column whose name contains `"TN"`, `"is_true_negative"` or `"id"`. -/
def cleanCoderCols (cols : List String) : List String :=
  cols.filter fun c =>
    !(strIn "TN" c) && !(strIn "is_true_negative" c) && !(strIn "id" c)

/-- Pooled judgment count of the Krippendorff section, `N = 2 * total_units`
for the two compared columns (rows given as label pairs). -/
def deN (ps : List (String × String)) : ℕ :=
  2 * ps.length

/-- Pooled label multiset (`pd.concat([col_a, col_b])`). -/
def allVals (ps : List (String × String)) : List String :=
  ps.map Prod.fst ++ ps.map Prod.snd

/-- Numerator of the nominal expected disagreement,
`sum(c * (N - c) for c in counts.values())`. -/
def deNumerator (ps : List (String × String)) : ℕ :=
  ((uniqueFirst (allVals ps)).map fun v =>
    (allVals ps).count v * (deN ps - (allVals ps).count v)).sum

/-- Expected disagreement `De` of the math section
(`De = [Sum of n * (N - n)] / [N * (N - 1)]`, denominator 1 when `N ≤ 1`). -/
def deVal (ps : List (String × String)) : ℚ :=
  mkRat (deNumerator ps) (if 1 < deN ps then deN ps * (deN ps - 1) else 1)

/-- Observed disagreement `Do` of the math section (mismatch fraction, 0 on
an empty table). -/
def doVal (ps : List (String × String)) : ℚ :=
  if ps.length = 0 then 0
  else mkRat (ps.countP fun pr => pr.1 != pr.2) ps.length

/-- Modelled from the spec: the third-party `simpledorff` nominal alpha the
statistics stage calls is not part of this repository; per the
specification's degenerate-case rule it yields the undefined sentinel (NaN,
modelled as `none`) when the expected disagreement vanishes, and
`1 - Do/De` otherwise. -/
def simpledorffAlpha (ps : List (String × String)) : Option ℚ :=
  if deVal ps = 0 then none else some (1 - doVal ps / deVal ps)

/-- Step 4 of the Krippendorff math section: the emitted line and the final
alpha value.  When `De = 0` the division is not performed, the line reads
`Undefined`, and the upstream value is passed through unchanged. -/
def mathAlphaStep4 (ps : List (String × String)) (alphaVal : Option ℚ) :
    String × Option ℚ :=
  if deVal ps = 0 then ("Alpha = Undefined (De=0, No Variance)", alphaVal)
  else
    ("Alpha = 1 - (Do / De)",
      match alphaVal with
      | none => some (1 - doVal ps / deVal ps)
      | some a => some a)

/-- `interpret_kappa` of `compare_agreement_columns.py`; the NaN sentinel
(`pd.isna`) is modelled as `none`. -/
def interpretKappa : Option ℚ → String
  | none => "Not applicable"
  | some k =>
    if k < 0 then "Poor agreement"
    else if k ≤ mkRat 20 100 then "Slight agreement"
    else if k ≤ mkRat 40 100 then "Fair agreement"
    else if k ≤ mkRat 60 100 then "Moderate agreement"
    else if k ≤ mkRat 80 100 then "Substantial agreement"
    else if k < 1 then "Almost perfect agreement"
    else if k = 1 then "Perfect agreement"
    else "Could not interpret kappa value"

end CompareAgreement

/-! ## Concrete example data used by witnesses and counterexamples -/

namespace MarkAgreements

/-- Coder A's unit of the spec's merge example. -/
def c5rowA : Row :=
  { p := "p1", text := "the cat sat", code := "X", memo := "", flags := [1, 0],
    labels := [], tn := 0, allAgree := 0, ignored := 0, tokens := ∅ }

/-- Coder B's unit of the spec's merge example. -/
def c5rowB : Row :=
  { p := "p1", text := "the cat sat on the mat", code := "X", memo := "",
    flags := [0, 1], labels := [], tn := 0, allAgree := 0, ignored := 0,
    tokens := ∅ }

/-- First of two equal-length, token-identical rows (tie-break example). -/
def c4rowA : Row :=
  { p := "p1", text := "ab cd", code := "X", memo := "", flags := [1, 0],
    labels := [], tn := 0, allAgree := 0, ignored := 0,
    tokens := getTokens "ab cd" }

/-- Second of two equal-length, token-identical rows (tie-break example). -/
def c4rowB : Row :=
  { p := "p1", text := "cd ab", code := "X", memo := "", flags := [0, 1],
    labels := [], tn := 0, allAgree := 0, ignored := 0,
    tokens := getTokens "cd ab" }

/-- Exact mode with the mutual-segments-only filter enabled. -/
def c1cfg : Config :=
  { tau := 1, alignAcrossCodes := false, mutualOnly := true,
    method := "METHOD_C", mode := 1 }

/-- Exact mode with the mutual-segments-only filter disabled. -/
def c1cfgOff : Config :=
  { tau := 1, alignAcrossCodes := false, mutualOnly := false,
    method := "METHOD_C", mode := 1 }

/-- A partially covered unit: coder 1 applied code `X`, coder 2 was silent. -/
def c1row : Row :=
  { p := "p1", text := "t", code := "X", memo := "", flags := [1, 0],
    labels := [], tn := 0, allAgree := 0, ignored := 0, tokens := ∅ }

/-- A fully covered unit (both coders applied code `X`). -/
def c1rowFull : Row :=
  { p := "p1", text := "t", code := "X", memo := "", flags := [1, 1],
    labels := [], tn := 0, allAgree := 0, ignored := 0, tokens := ∅ }

/-- Row with a coherent token cache, for the Pass 2 witnesses. -/
def c2wRowA : Row :=
  { p := "p1", text := "alpha beta", code := "X", memo := "", flags := [1, 0],
    labels := [], tn := 0, allAgree := 0, ignored := 0,
    tokens := getTokens "alpha beta" }

/-- Second row with a coherent token cache, overlapping the first. -/
def c2wRowB : Row :=
  { p := "p1", text := "alpha beta gamma", code := "X", memo := "",
    flags := [0, 1], labels := [], tn := 0, allAgree := 0, ignored := 0,
    tokens := getTokens "alpha beta gamma" }

end MarkAgreements

namespace CompareAgreement

/-- A mutually coded unit. -/
def c3rowCoded : SRow :=
  { p := "p1", text := "t1", code := "X", f1 := 1, f2 := 1, tn := 0 }

/-- An injected true-negative unit. -/
def c3rowTN : SRow :=
  { p := "p1", text := "t2", code := "None", f1 := 0, f2 := 0, tn := 1 }

/-- A unit carrying `TN=1` with non-zero coder flags (raw-CSV shape in which
the Method C working set holds no all-zero rows). -/
def c3rowOdd : SRow :=
  { p := "p1", text := "t", code := "X", f1 := 1, f2 := 1, tn := 1 }

end CompareAgreement

namespace MarkAgreements

/-- Equality of every row field except `text` and `tokens` — the frame the
cross-code alignment pass must preserve. -/
def frameEq (a b : Row) : Prop :=
  a.p = b.p ∧ a.code = b.code ∧ a.memo = b.memo ∧ a.flags = b.flags ∧
  a.labels = b.labels ∧ a.tn = b.tn ∧ a.allAgree = b.allAgree ∧
  a.ignored = b.ignored

/-- Invariant of the Pass 2 analysis: same length as the initial rows, every
row keeps its initial text, participant and code, and every token cache
agrees with the row's text. -/
def SameFrame (R0 R : List Row) : Prop :=
  R.length = R0.length ∧
  ∀ i, (getRow R i).text = (getRow R0 i).text ∧
       (getRow R i).p = (getRow R0 i).p ∧
       (getRow R i).code = (getRow R0 i).code ∧
       (getRow R i).tokens = getTokens (getRow R i).text

end MarkAgreements

/-! ## Claim theorems -/

/-- C10: the statistics stage silently removes from the coder-column list
every column whose name contains the substring `"TN"`,
`"is_true_negative"` or `"id"` — in particular coders literally named
`"Sidney"` or `"David"` — before any metric is computed. -/
theorem C10_coder_column_filter :
    (∀ cols c, c ∈ CompareAgreement.cleanCoderCols cols ↔
      (c ∈ cols ∧ strIn "TN" c = false ∧ strIn "is_true_negative" c = false ∧
        strIn "id" c = false)) ∧
    strIn "id" "Sidney" = true ∧ strIn "id" "David" = true ∧
    CompareAgreement.cleanCoderCols ["Sidney", "David", "alice"] = ["alice"] := by
  refine ⟨fun cols c => ?_, by decide, by decide, by decide⟩
  simp [CompareAgreement.cleanCoderCols, List.mem_filter, Bool.and_eq_true,
    Bool.not_eq_true', and_assoc]

/-- C9: whenever the expected disagreement `De` of the Krippendorff section
is 0, the reported Alpha is the explicit undefined sentinel (interpreted as
`"Not applicable"`, printed as `Undefined (De=0, No Variance)`), never the
number 0 or 1, and the `Do/De` division is not performed. -/
theorem C9_alpha_de_zero (ps : List (String × String))
    (h : CompareAgreement.deVal ps = 0) :
    CompareAgreement.simpledorffAlpha ps = none ∧
    CompareAgreement.mathAlphaStep4 ps (CompareAgreement.simpledorffAlpha ps) =
      ("Alpha = Undefined (De=0, No Variance)", none) ∧
    CompareAgreement.interpretKappa (CompareAgreement.simpledorffAlpha ps) =
      "Not applicable" ∧
    (CompareAgreement.mathAlphaStep4 ps
        (CompareAgreement.simpledorffAlpha ps)).2 ≠ some 0 ∧
    (CompareAgreement.mathAlphaStep4 ps
        (CompareAgreement.simpledorffAlpha ps)).2 ≠ some 1 := by
  have hs : CompareAgreement.simpledorffAlpha ps = none := by
    simp [CompareAgreement.simpledorffAlpha, h]
  have hm : CompareAgreement.mathAlphaStep4 ps
      (CompareAgreement.simpledorffAlpha ps) =
      ("Alpha = Undefined (De=0, No Variance)", none) := by
    simp [CompareAgreement.mathAlphaStep4, h, hs]
  refine ⟨hs, hm, by rw [hs]; rfl, by rw [hm]; simp, by rw [hm]; simp⟩

/-- Witness for C9 at a concrete degenerate table (both coders always said
`"1"`, so `De = 0`). -/
theorem C9_alpha_de_zero_witness :
    CompareAgreement.simpledorffAlpha [("1", "1"), ("1", "1")] = none ∧
    CompareAgreement.interpretKappa
      (CompareAgreement.simpledorffAlpha [("1", "1"), ("1", "1")]) =
      "Not applicable" :=
  ⟨(C9_alpha_de_zero [("1", "1"), ("1", "1")] (by decide)).1,
   (C9_alpha_de_zero [("1", "1"), ("1", "1")] (by decide)).2.2.1⟩

/-- C8: for a transcript sentence with non-empty cleaned text, the injector
appends a `code="None"`, `TN=1`, all-flags-0 unit exactly when no existing
coded text for the participant matches it by case-insensitive substring
containment in either direction. -/
theorem C8_tn_injector (pId : String) (codedLower : List String) (n : ℕ)
    (s : String) (hne : CalculateIRR.cleanText s ≠ "") :
    (CalculateIRR.coveredBy codedLower (lowerStr (CalculateIRR.cleanText s)) = false →
      CalculateIRR.injectSentence pId codedLower n s =
        some { p := pId, text := CalculateIRR.cleanText s, code := "None",
               memo := "", allAgree := 0, tn := 1,
               flags := List.replicate n 0 }) ∧
    (CalculateIRR.coveredBy codedLower (lowerStr (CalculateIRR.cleanText s)) = true →
      CalculateIRR.injectSentence pId codedLower n s = none) ∧
    CalculateIRR.coveredBy codedLower (lowerStr (CalculateIRR.cleanText s)) =
      codedLower.any (fun ex =>
        strIn ex (lowerStr (CalculateIRR.cleanText s)) ||
        strIn (lowerStr (CalculateIRR.cleanText s)) ex) := by
  refine ⟨fun hcov => ?_, fun hcov => ?_, rfl⟩ <;>
    simp [CalculateIRR.injectSentence, hne, hcov]

/-- Witness for C8: an uncovered sentence produces the injected row, a
covered one produces none. -/
theorem C8_tn_injector_witness :
    CalculateIRR.injectSentence "p07" ["hello world"] 2 "Nothing matches here." =
      some { p := "p07", text := "Nothing matches here.", code := "None",
             memo := "", allAgree := 0, tn := 1, flags := [0, 0] } ∧
    CalculateIRR.injectSentence "p07" ["hello world"] 2 "Hello world!" = none :=
  ⟨(C8_tn_injector "p07" ["hello world"] 2 "Nothing matches here." (by decide)).1
      (by decide),
   (C8_tn_injector "p07" ["hello world"] 2 "Hello world!" (by decide)).2.1
      (by decide)⟩

/-- C5: on the spec's example (same participant and code, texts
`"the cat sat"` and `"the cat sat on the mat"`, one coder flag each,
τ = 0.3), the Jaccard overlap is 3/5, Pass 2 merges the two units into a
single surviving row carrying the longer text and both coder flags, and the
subsequent agreement computation sets its `all_agree` to 1. -/
theorem C5_merge_example :
    overlap (getTokens "the cat sat") (getTokens "the cat sat on the mat") =
      mkRat 3 5 ∧
    (MarkAgreements.pass2 (mkRat 3 10)
      (MarkAgreements.prep 2 [MarkAgreements.c5rowA, MarkAgreements.c5rowB])).length = 1 ∧
    (MarkAgreements.getRow (MarkAgreements.phase3 1 2 (MarkAgreements.pass2 (mkRat 3 10)
      (MarkAgreements.prep 2 [MarkAgreements.c5rowA, MarkAgreements.c5rowB]))) 0).text =
      "the cat sat on the mat" ∧
    (MarkAgreements.getRow (MarkAgreements.phase3 1 2 (MarkAgreements.pass2 (mkRat 3 10)
      (MarkAgreements.prep 2 [MarkAgreements.c5rowA, MarkAgreements.c5rowB]))) 0).flags =
      [1, 1] ∧
    (MarkAgreements.getRow (MarkAgreements.phase3 1 2 (MarkAgreements.pass2 (mkRat 3 10)
      (MarkAgreements.prep 2 [MarkAgreements.c5rowA, MarkAgreements.c5rowB]))) 0).allAgree =
      1 := by
  decide

/-- Counterexample to C4 as stated: on two same-group rows of equal text
length, Pass 2 does not process ties earlier-original-row-first — the
spec-claimed order produces a different merge result (the survivor and its
text differ). -/
theorem C4_counterexample :
    MarkAgreements.pass2 (mkRat 1 2) [MarkAgreements.c4rowA, MarkAgreements.c4rowB] ≠
      MarkAgreements.pass2With MarkAgreements.claimedSortIdx (mkRat 1 2)
        [MarkAgreements.c4rowA, MarkAgreements.c4rowB] ∧
    (MarkAgreements.pass2 (mkRat 1 2)
      [MarkAgreements.c4rowA, MarkAgreements.c4rowB]).map
        (fun r => r.text) = ["cd ab"] ∧
    (MarkAgreements.pass2With MarkAgreements.claimedSortIdx (mkRat 1 2)
      [MarkAgreements.c4rowA, MarkAgreements.c4rowB]).map
        (fun r => r.text) = ["ab cd"] := by
  decide

/-- Counterexample to C1 as stated: in Exact mode with the
mutual-segments-only flag enabled, the written dataset contains a row with
`all_agree = 1` whose coder-flag sum is 1 rather than the coder count 2. -/
theorem C1_counterexample :
    (MarkAgreements.markAgreements MarkAgreements.c1cfg 2
      [MarkAgreements.c1row]).length = 1 ∧
    (MarkAgreements.getRow (MarkAgreements.markAgreements MarkAgreements.c1cfg 2
      [MarkAgreements.c1row]) 0).allAgree = 1 ∧
    MarkAgreements.sumFlags (MarkAgreements.getRow
      (MarkAgreements.markAgreements MarkAgreements.c1cfg 2
        [MarkAgreements.c1row]) 0) = 1 ∧
    MarkAgreements.sumFlags (MarkAgreements.getRow
      (MarkAgreements.markAgreements MarkAgreements.c1cfg 2
        [MarkAgreements.c1row]) 0) ≠ 2 := by
  decide

/-- Counterexample to C3 as stated: under Method A with injected true
negatives and a working set free of all-zero rows, the statistics stage
produces no adjusted Kappa (the virtual-TN injection is gated on
Method C). -/
theorem C3_counterexample :
    CompareAgreement.hasInjectedTNs
      [CompareAgreement.c3rowCoded, CompareAgreement.c3rowTN] = true ∧
    CompareAgreement.zeroRows (CompareAgreement.statsWorkingSet "METHOD_A" false
      [CompareAgreement.c3rowCoded, CompareAgreement.c3rowTN]) = 0 ∧
    (CompareAgreement.statsWorkingSet "METHOD_A" false
      [CompareAgreement.c3rowCoded, CompareAgreement.c3rowTN]).length = 1 ∧
    CompareAgreement.adjustedKappaCols "METHOD_A" false
      [CompareAgreement.c3rowCoded, CompareAgreement.c3rowTN] [] (mkRat 1 10) =
      none ∧
    CompareAgreement.adjustedKappaCols "METHOD_B" false
      [CompareAgreement.c3rowCoded, CompareAgreement.c3rowTN] [] (mkRat 1 10) =
      none := by
  decide

namespace MarkAgreements

/-- Row lookup commutes with a row-wise map. -/
theorem getRow_map (f : Row → Row) (rows : List Row) (i : ℕ)
    (hi : i < rows.length) :
    getRow (rows.map f) i = f (getRow rows i) := by
  unfold getRow
  rw [List.getD_eq_getElem?_getD, List.getD_eq_getElem?_getD, List.getElem?_map,
    List.getElem?_eq_getElem hi]
  rfl

/-- The conflict test is false exactly when every silent coder's code set on
the segment is a subset of the other coders' codes. -/
theorem isConflictRow_eq_false (n : ℕ) (rows : List Row) (r : Row) :
    isConflictRow n rows r = false ↔
      ∀ c < n, r.flags.getD c 0 = 0 →
        codeSetAt rows r.p r.text c ⊆ otherCodesAt n rows r.p r.text c := by
  rw [← Bool.not_eq_true]
  simp only [isConflictRow, List.any_eq_true, List.mem_range, Bool.and_eq_true,
    beq_iff_eq, Bool.not_eq_true', decide_eq_false_iff_not, not_exists]
  constructor
  · intro h c hc hflag
    have := h c
    rw [not_and] at this
    have := this hc
    rw [not_and] at this
    by_contra hnot
    exact (this hflag) hnot
  · intro h c
    rw [not_and]
    intro hc
    rw [not_and]
    intro hflag hnot
    exact hnot (h c hc hflag)

end MarkAgreements

/-- C6: under Method A, a partially covered row (`TN=0`, some but not all
coder flags set) is marked as an ignored omission exactly when every silent
coder's codes on the same `(participant, text)` segment form a subset of
the codes the other coders applied there; otherwise it is a conflict and
`ignored` stays 0, counting as a disagreement. -/
theorem C6_method_a_omission (n : ℕ) (rows : List MarkAgreements.Row) (i : ℕ)
    (hi : i < rows.length)
    (htn : (MarkAgreements.getRow rows i).tn = 0)
    (hsome : 0 < MarkAgreements.sumFlags (MarkAgreements.getRow rows i))
    (hnotall : MarkAgreements.sumFlags (MarkAgreements.getRow rows i) ≠ n) :
    ((MarkAgreements.getRow (MarkAgreements.markIgnored "METHOD_A" n rows) i).ignored
        = 1 ↔
      ∀ c < n, (MarkAgreements.getRow rows i).flags.getD c 0 = 0 →
        MarkAgreements.codeSetAt rows (MarkAgreements.getRow rows i).p
            (MarkAgreements.getRow rows i).text c ⊆
          MarkAgreements.otherCodesAt n rows (MarkAgreements.getRow rows i).p
            (MarkAgreements.getRow rows i).text c) := by
  rw [MarkAgreements.markIgnored, MarkAgreements.getRow_map _ rows i hi]
  show MarkAgreements.ignoredVal "METHOD_A" n rows (MarkAgreements.getRow rows i) = 1 ↔ _
  rw [← MarkAgreements.isConflictRow_eq_false]
  simp only [MarkAgreements.ignoredVal, if_pos rfl, htn, hnotall]
  norm_num

/-- Witness for C6: the silent coder applied nothing on the segment, so the
row is an ignored omission. -/
theorem C6_method_a_omission_witness :
    (MarkAgreements.getRow (MarkAgreements.markIgnored "METHOD_A" 2
      [MarkAgreements.c1row]) 0).ignored = 1 :=
  (C6_method_a_omission 2 [MarkAgreements.c1row] 0 (by decide) (by decide)
    (by decide) (by decide)).mpr (by decide)

/-- C1 amended: in Exact mode, provided the mutual-segments-only filter is
off, every row written by `calculate_agreement` with `all_agree = 1` has a
coder-flag sum equal to the number of registered coders (with the filter
on, omission rows receive `all_agree = 1` while their flags are not
modified — see the counterexample). -/
theorem C1_exact_invariant (cfg : MarkAgreements.Config) (n : ℕ)
    (rows : List MarkAgreements.Row) (r : MarkAgreements.Row)
    (hmode : cfg.mode = 1) (hmut : cfg.mutualOnly = false)
    (hr : r ∈ MarkAgreements.markAgreements cfg n rows)
    (hagree : r.allAgree = 1) :
    MarkAgreements.sumFlags r = n := by
  rw [MarkAgreements.markAgreements, hmut] at hr
  simp only [Bool.false_eq_true, if_false] at hr
  rw [MarkAgreements.markIgnored] at hr
  rcases List.mem_map.1 hr with ⟨s, hs, rfl⟩
  rw [MarkAgreements.phase3, hmode] at hs
  simp only [OfNat.one_ne_ofNat, if_false] at hs
  rcases List.mem_map.1 hs with ⟨t, ht, rfl⟩
  rcases List.mem_map.1 ht with ⟨u, hu, rfl⟩
  have hagree' :
      (if MarkAgreements.sumFlags u = n then 1 else 0) = 1 := hagree
  by_cases h : MarkAgreements.sumFlags u = n
  · exact h
  · rw [if_neg h] at hagree'
    exact absurd hagree' (by norm_num)

/-- Witness for C1 amended: a fully covered row comes out with
`all_agree = 1` and flag sum equal to the coder count. -/
theorem C1_exact_invariant_witness :
    MarkAgreements.sumFlags (MarkAgreements.getRow
      (MarkAgreements.markAgreements MarkAgreements.c1cfgOff 2
        [MarkAgreements.c1rowFull]) 0) = 2 :=
  C1_exact_invariant MarkAgreements.c1cfgOff 2 [MarkAgreements.c1rowFull] _
    rfl rfl (by decide) (by decide)

/-- C3 amended: with injected true negatives present, the adjusted Kappa
data is produced only under Method C — Methods that do not inject virtual
TNs (A and B) yield none — and under Method C it is produced exactly when
the working set holds no all-zero row, by appending the injected-TN count
of synthetic `(0, 0)` rows to the two coder columns. -/
theorem C3_adjusted_kappa (rows0 : List CompareAgreement.SRow)
    (transcripts : List String) (margin : ℚ) (mo : Bool)
    (hinj : CompareAgreement.hasInjectedTNs rows0 = true) :
    (∀ method, CompareAgreement.shouldInjectVirtualTNs method = false →
      CompareAgreement.adjustedKappaCols method mo rows0 transcripts margin =
        none) ∧
    (0 < CompareAgreement.zeroRows
        (CompareAgreement.statsWorkingSet "METHOD_C" mo rows0) →
      CompareAgreement.adjustedKappaCols "METHOD_C" mo rows0 transcripts margin =
        none) ∧
    (CompareAgreement.zeroRows
        (CompareAgreement.statsWorkingSet "METHOD_C" mo rows0) = 0 →
      CompareAgreement.adjustedKappaCols "METHOD_C" mo rows0 transcripts margin =
        some ((CompareAgreement.statsWorkingSet "METHOD_C" mo rows0).map
                (fun r => r.f1) ++
              List.replicate (CompareAgreement.tnSum rows0) 0,
              (CompareAgreement.statsWorkingSet "METHOD_C" mo rows0).map
                (fun r => r.f2) ++
              List.replicate (CompareAgreement.tnSum rows0) 0)) := by
  refine ⟨fun method hm => ?_, fun hz => ?_, fun hz => ?_⟩
  · simp [CompareAgreement.adjustedKappaCols, hinj, hm]
  · simp [CompareAgreement.adjustedKappaCols, hinj, hz]
  · simp [CompareAgreement.adjustedKappaCols, hinj, hz,
      CompareAgreement.shouldInjectVirtualTNs]

/-- Witness for C3 amended: Method C skips the injection when the working
set still holds zero-rows, and performs it when it does not. -/
theorem C3_adjusted_kappa_witness :
    CompareAgreement.adjustedKappaCols "METHOD_C" false
      [CompareAgreement.c3rowCoded, CompareAgreement.c3rowTN] [] (mkRat 1 10) =
      none ∧
    CompareAgreement.adjustedKappaCols "METHOD_C" false
      [CompareAgreement.c3rowOdd] [] 0 = some ([1, 0], [1, 0]) :=
  ⟨(C3_adjusted_kappa [CompareAgreement.c3rowCoded, CompareAgreement.c3rowTN]
      [] (mkRat 1 10) false (by decide)).2.1 (by decide),
   (C3_adjusted_kappa [CompareAgreement.c3rowOdd] [] 0 false (by decide)).2.2
      (by decide)⟩

/-- Stable insertion permutes the insertion of the element. -/
theorem insertAsc_perm {α : Type} (key : α → ℕ) (x : α) (l : List α) :
    (insertAsc key x l).Perm (x :: l) := by
  induction l with
  | nil => exact List.Perm.refl _
  | cons y ys ih =>
    rw [insertAsc]
    by_cases h : key x ≤ key y
    · rw [if_pos h]
    · rw [if_neg h]
      exact (ih.cons y).trans (List.Perm.swap x y ys)

/-- The stable sort is a permutation of its input. -/
theorem sortByLen_perm {α : Type} (key : α → ℕ) (l : List α) :
    (sortByLen key l).Perm l := by
  induction l with
  | nil => exact List.Perm.refl _
  | cons x xs ih => exact (insertAsc_perm key x _).trans (ih.cons x)

/-- Membership in a stable insertion. -/
theorem mem_insertAsc {α : Type} (key : α → ℕ) (x a : α) (l : List α) :
    a ∈ insertAsc key x l ↔ a ∈ x :: l :=
  (insertAsc_perm key x l).mem_iff

/-- Stable insertion preserves sortedness by the key. -/
theorem insertAsc_pairwise_le {α : Type} (key : α → ℕ) (x : α) (l : List α)
    (hl : l.Pairwise fun a b => key a ≤ key b) :
    (insertAsc key x l).Pairwise fun a b => key a ≤ key b := by
  induction l with
  | nil => exact List.pairwise_singleton _ _
  | cons y ys ih =>
    rcases List.pairwise_cons.1 hl with ⟨h1, h2⟩
    rw [insertAsc]
    by_cases h : key x ≤ key y
    · rw [if_pos h]
      refine List.Pairwise.cons ?_ hl
      intro z hz
      rcases List.mem_cons.1 hz with rfl | hz'
      · exact h
      · exact le_trans h (h1 z hz')
    · rw [if_neg h]
      refine List.Pairwise.cons ?_ (ih h2)
      intro z hz
      rcases List.mem_cons.1 ((mem_insertAsc key x z ys).1 hz) with rfl | hz'
      · exact le_of_lt (lt_of_not_le h)
      · exact h1 z hz'

/-- The stable sort is sorted (non-decreasing key along the list). -/
theorem sortByLen_sorted {α : Type} (key : α → ℕ) (l : List α) :
    (sortByLen key l).Pairwise fun a b => key a ≤ key b := by
  induction l with
  | nil => exact List.Pairwise.nil
  | cons x xs ih => exact insertAsc_pairwise_le key x _ ih

/-- Stability of the insertion on position lists: with all positions of `l`
above `x`, ties keep `x` first. -/
theorem insertAsc_pairwise_stable (key : ℕ → ℕ) (x : ℕ) (l : List ℕ)
    (hx : ∀ y ∈ l, x < y)
    (hl : l.Pairwise fun a b => key a < key b ∨ (key a = key b ∧ a < b)) :
    (insertAsc key x l).Pairwise
      fun a b => key a < key b ∨ (key a = key b ∧ a < b) := by
  induction l with
  | nil => exact List.pairwise_singleton _ _
  | cons y ys ih =>
    rcases List.pairwise_cons.1 hl with ⟨h1, h2⟩
    have hxy : x < y := hx y (List.mem_cons_self y ys)
    rw [insertAsc]
    by_cases h : key x ≤ key y
    · rw [if_pos h]
      refine List.Pairwise.cons ?_ hl
      intro z hz
      rcases List.mem_cons.1 hz with rfl | hz'
      · rcases lt_or_eq_of_le h with hlt | heq
        · exact Or.inl hlt
        · exact Or.inr ⟨heq, hxy⟩
      · have hyz : key y ≤ key z := by
          rcases h1 z hz' with h' | ⟨h', _⟩
          · exact le_of_lt h'
          · exact le_of_eq h'
        rcases lt_or_eq_of_le (le_trans h hyz) with hlt | heq
        · exact Or.inl hlt
        · exact Or.inr ⟨heq, hx z (List.mem_cons_of_mem _ hz')⟩
    · rw [if_neg h]
      refine List.Pairwise.cons ?_
        (ih (fun z hz => hx z (List.mem_cons_of_mem _ hz)) h2)
      intro z hz
      rcases List.mem_cons.1 ((mem_insertAsc key x z ys).1 hz) with rfl | hz'
      · exact Or.inl (lt_of_not_le h)
      · exact h1 z hz'

/-- Stability of the stable sort on a strictly increasing position list:
the output is ordered by ascending key with ties in ascending position. -/
theorem sortByLen_stable (key : ℕ → ℕ) (l : List ℕ)
    (hl : l.Pairwise (· < ·)) :
    (sortByLen key l).Pairwise
      fun a b => key a < key b ∨ (key a = key b ∧ a < b) := by
  induction l with
  | nil => exact List.Pairwise.nil
  | cons x xs ih =>
    rcases List.pairwise_cons.1 hl with ⟨h1, h2⟩
    exact insertAsc_pairwise_stable key x _
      (fun y hy => h1 y ((sortByLen_perm key xs).mem_iff.1 hy)) (ih h2)

/-- C4 amended: Pass 2 iterates the pairs of the order produced by
`sortIdx` (the reversed stable ascending argsort), and on a group of
strictly increasing original positions that order is descending in text
length with ties broken by reverse original row order — the later original
row comes first, not the earlier one (see the counterexample for the
divergence from the claimed earlier-first order). -/
theorem C4_pass2_order (τ : ℚ) (rows : List MarkAgreements.Row)
    (poss : List ℕ) (hpos : poss.Pairwise (· < ·)) :
    MarkAgreements.pass2 τ rows =
      MarkAgreements.pass2With MarkAgreements.sortIdx τ rows ∧
    (MarkAgreements.sortIdx rows poss).Perm poss ∧
    (MarkAgreements.sortIdx rows poss).Pairwise (fun i j =>
      MarkAgreements.lenAt rows j < MarkAgreements.lenAt rows i ∨
        (MarkAgreements.lenAt rows j = MarkAgreements.lenAt rows i ∧ j < i)) := by
  refine ⟨rfl, ?_, ?_⟩
  · exact (List.reverse_perm _).trans (sortByLen_perm _ _)
  · rw [MarkAgreements.sortIdx, List.pairwise_reverse]
    exact sortByLen_stable _ _ hpos

/-- Witness for C4 amended at the two-row tie example. -/
theorem C4_pass2_order_witness :
    (MarkAgreements.sortIdx [MarkAgreements.c4rowA, MarkAgreements.c4rowB]
      [0, 1]).Perm [0, 1] ∧
    (MarkAgreements.sortIdx [MarkAgreements.c4rowA, MarkAgreements.c4rowB]
      [0, 1]).Pairwise (fun i j =>
        MarkAgreements.lenAt [MarkAgreements.c4rowA, MarkAgreements.c4rowB] j <
          MarkAgreements.lenAt [MarkAgreements.c4rowA, MarkAgreements.c4rowB] i ∨
        (MarkAgreements.lenAt [MarkAgreements.c4rowA, MarkAgreements.c4rowB] j =
          MarkAgreements.lenAt [MarkAgreements.c4rowA, MarkAgreements.c4rowB] i ∧
          j < i)) :=
  ⟨(C4_pass2_order 1 [MarkAgreements.c4rowA, MarkAgreements.c4rowB] [0, 1]
      (by decide)).2.1,
   (C4_pass2_order 1 [MarkAgreements.c4rowA, MarkAgreements.c4rowB] [0, 1]
      (by decide)).2.2⟩

namespace MarkAgreements

/-- Row lookup after a positional update. -/
theorem getRow_set (rows : List Row) (i j : ℕ) (r : Row) :
    getRow (rows.set i r) j =
      if i = j ∧ j < rows.length then r else getRow rows j := by
  unfold getRow
  rw [List.getD_eq_getElem?_getD, List.getD_eq_getElem?_getD, List.getElem?_set]
  by_cases hij : i = j
  · subst hij
    by_cases hj : i < rows.length
    · rw [if_pos rfl, if_pos hj, if_pos ⟨rfl, hj⟩]
      rfl
    · rw [if_pos rfl, if_neg hj, if_neg (fun h => hj h.2)]
      rw [List.getElem?_eq_none (le_of_not_lt hj)]
  · rw [if_neg hij, if_neg (fun h => hij h.1)]

/-- A row looked up within bounds is a member of the list. -/
theorem getRow_mem (rows : List Row) (i : ℕ) (hi : i < rows.length) :
    getRow rows i ∈ rows := by
  unfold getRow
  rw [List.getD_eq_getElem?_getD, List.getElem?_eq_getElem hi]
  exact List.getElem_mem hi

/-- A row looked up out of bounds is the default row. -/
theorem getRow_of_length_le (rows : List Row) (i : ℕ)
    (hi : rows.length ≤ i) : getRow rows i = default := by
  unfold getRow
  rw [List.getD_eq_getElem?_getD, List.getElem?_eq_none hi]
  rfl

/-- The frame relation is reflexive. -/
theorem frameEq_refl (a : Row) : frameEq a a :=
  ⟨rfl, rfl, rfl, rfl, rfl, rfl, rfl, rfl⟩

/-- The frame relation is transitive. -/
theorem frameEq_trans {a b c : Row} (h1 : frameEq a b) (h2 : frameEq b c) :
    frameEq a c :=
  ⟨h1.1.trans h2.1, h1.2.1.trans h2.2.1, h1.2.2.1.trans h2.2.2.1,
   h1.2.2.2.1.trans h2.2.2.2.1, h1.2.2.2.2.1.trans h2.2.2.2.2.1,
   h1.2.2.2.2.2.1.trans h2.2.2.2.2.2.1,
   h1.2.2.2.2.2.2.1.trans h2.2.2.2.2.2.2.1,
   h1.2.2.2.2.2.2.2.trans h2.2.2.2.2.2.2.2⟩

/-- One Pass 1 pair step keeps the row count and every non-text field. -/
theorem pass1Step_frame (τ : ℚ) (R : List Row) (pr : ℕ × ℕ) :
    (pass1Step τ R pr).length = R.length ∧
    ∀ i, frameEq (getRow (pass1Step τ R pr) i) (getRow R i) := by
  simp only [pass1Step]
  by_cases h1 : τ ≤ overlap (getRow R pr.1).tokens (getRow R pr.2).tokens
  · rw [if_pos h1]
    by_cases h2 : (getRow R pr.1).text ≠ (getRow R pr.2).text
    · rw [if_pos h2]
      constructor
      · rw [List.length_set, List.length_set]
      · intro i
        rw [getRow_set, getRow_set]
        split_ifs with ha hb
        · obtain ⟨heq, _⟩ := ha
          subst heq
          exact ⟨rfl, rfl, rfl, rfl, rfl, rfl, rfl, rfl⟩
        · obtain ⟨heq, _⟩ := hb
          subst heq
          exact ⟨rfl, rfl, rfl, rfl, rfl, rfl, rfl, rfl⟩
        · exact frameEq_refl _
    · rw [if_neg h2]
      exact ⟨rfl, fun i => frameEq_refl _⟩
  · rw [if_neg h1]
    exact ⟨rfl, fun i => frameEq_refl _⟩

/-- Folding Pass 1 pair steps keeps the row count and every non-text
field. -/
theorem foldl_pass1Step_frame (τ : ℚ) (prs : List (ℕ × ℕ)) (R : List Row) :
    (prs.foldl (pass1Step τ) R).length = R.length ∧
    ∀ i, frameEq (getRow (prs.foldl (pass1Step τ) R) i) (getRow R i) := by
  induction prs generalizing R with
  | nil => exact ⟨rfl, fun i => frameEq_refl _⟩
  | cons p ps ih =>
    obtain ⟨hl1, hf1⟩ := pass1Step_frame τ R p
    obtain ⟨hl2, hf2⟩ := ih (pass1Step τ R p)
    rw [List.foldl_cons]
    exact ⟨hl2.trans hl1, fun i => frameEq_trans (hf2 i) (hf1 i)⟩

/-- Folding Pass 1 group processing keeps the row count and every non-text
field. -/
theorem foldl_pass1Group_frame (τ : ℚ) (gs : List (List ℕ)) (R : List Row) :
    (gs.foldl (pass1Group τ) R).length = R.length ∧
    ∀ i, frameEq (getRow (gs.foldl (pass1Group τ) R) i) (getRow R i) := by
  induction gs generalizing R with
  | nil => exact ⟨rfl, fun i => frameEq_refl _⟩
  | cons g gs ih =>
    obtain ⟨hl1, hf1⟩ := foldl_pass1Step_frame τ (pairsOf (sortIdx R g)) R
    obtain ⟨hl2, hf2⟩ := ih (pass1Group τ R g)
    rw [List.foldl_cons]
    exact ⟨hl2.trans hl1, fun i => frameEq_trans (hf2 i) (hf1 i)⟩

end MarkAgreements

/-- C7: the cross-code alignment pass never deletes a row (the row count is
preserved) and never changes a coder flag, label, memo, TN value, code or
participant; and its pair step, on two in-range rows whose overlap reaches
the threshold and whose texts differ, rewrites both rows' text to the
longer of the two and refreshes both token caches. -/
theorem C7_pass1_frame (τ : ℚ) (rows : List MarkAgreements.Row) :
    (MarkAgreements.pass1 τ rows).length = rows.length ∧
    (∀ i, MarkAgreements.frameEq
      (MarkAgreements.getRow (MarkAgreements.pass1 τ rows) i)
      (MarkAgreements.getRow rows i)) ∧
    (∀ (R : List MarkAgreements.Row) (i j : ℕ), i < R.length → j < R.length →
      i ≠ j →
      τ ≤ overlap (MarkAgreements.getRow R i).tokens
        (MarkAgreements.getRow R j).tokens →
      (MarkAgreements.getRow R i).text ≠ (MarkAgreements.getRow R j).text →
      (MarkAgreements.getRow (MarkAgreements.pass1Step τ R (i, j)) i).text =
        MarkAgreements.stitch (MarkAgreements.getRow R i).text
          (MarkAgreements.getRow R j).text ∧
      (MarkAgreements.getRow (MarkAgreements.pass1Step τ R (i, j)) j).text =
        MarkAgreements.stitch (MarkAgreements.getRow R i).text
          (MarkAgreements.getRow R j).text ∧
      (MarkAgreements.getRow (MarkAgreements.pass1Step τ R (i, j)) i).tokens =
        getTokens (MarkAgreements.stitch (MarkAgreements.getRow R i).text
          (MarkAgreements.getRow R j).text) ∧
      (MarkAgreements.getRow (MarkAgreements.pass1Step τ R (i, j)) j).tokens =
        getTokens (MarkAgreements.stitch (MarkAgreements.getRow R i).text
          (MarkAgreements.getRow R j).text)) := by
  obtain ⟨hl, hf⟩ := MarkAgreements.foldl_pass1Group_frame τ
    (MarkAgreements.pGroupsOf rows) rows
  refine ⟨hl, hf, ?_⟩
  intro R i j hi hj hne hov htext
  simp only [MarkAgreements.pass1Step]
  rw [if_pos hov, if_pos htext]
  constructor
  · rw [MarkAgreements.getRow_set, if_neg (fun h => hne h.1.symm),
      MarkAgreements.getRow_set, if_pos ⟨rfl, hi⟩]
  constructor
  · rw [MarkAgreements.getRow_set, if_pos ⟨rfl, by rwa [List.length_set]⟩]
  constructor
  · rw [MarkAgreements.getRow_set, if_neg (fun h => hne h.1.symm),
      MarkAgreements.getRow_set, if_pos ⟨rfl, hi⟩]
  · rw [MarkAgreements.getRow_set, if_pos ⟨rfl, by rwa [List.length_set]⟩]

/-- Witness for C7 at a concrete two-row participant group. -/
theorem C7_pass1_frame_witness :
    (MarkAgreements.getRow (MarkAgreements.pass1Step (mkRat 1 2)
        [MarkAgreements.c2wRowA, MarkAgreements.c2wRowB] (0, 1)) 0).text =
      MarkAgreements.stitch "alpha beta" "alpha beta gamma" ∧
    (MarkAgreements.getRow (MarkAgreements.pass1Step (mkRat 1 2)
        [MarkAgreements.c2wRowA, MarkAgreements.c2wRowB] (0, 1)) 1).text =
      MarkAgreements.stitch "alpha beta" "alpha beta gamma" :=
  ⟨((C7_pass1_frame (mkRat 1 2) []).2.2
      [MarkAgreements.c2wRowA, MarkAgreements.c2wRowB] 0 1 (by decide) (by decide)
      (by decide) (by decide) (by decide)).1,
   ((C7_pass1_frame (mkRat 1 2) []).2.2
      [MarkAgreements.c2wRowA, MarkAgreements.c2wRowB] 0 1 (by decide) (by decide)
      (by decide) (by decide) (by decide)).2.1⟩

/-- The Jaccard overlap is symmetric. -/
theorem overlap_comm (a b : Finset String) : overlap a b = overlap b a := by
  simp only [overlap]
  by_cases ha : a = ∅ <;> by_cases hb : b = ∅ <;>
    simp [ha, hb, Finset.inter_comm, Finset.union_comm]

/-- Pairs produced by `pairsOf` respect any pairwise relation of the list. -/
theorem pairsOf_pairwise {α : Type} {R : α → α → Prop} :
    ∀ l : List α, l.Pairwise R → ∀ pr ∈ pairsOf l, R pr.1 pr.2 := by
  intro l
  induction l with
  | nil => intro _ pr hpr; simp [pairsOf] at hpr
  | cons x xs ih =>
    intro hl pr hpr
    rcases List.pairwise_cons.1 hl with ⟨h1, h2⟩
    rcases List.mem_append.1 hpr with hm | hm
    · rcases List.mem_map.1 hm with ⟨y, hy, rfl⟩
      exact h1 y hy
    · exact ih h2 pr hm

/-- `pairsOf` covers every unordered pair of distinct members. -/
theorem pairsOf_complete {α : Type} :
    ∀ (l : List α) (a b : α), a ∈ l → b ∈ l → a ≠ b →
      (a, b) ∈ pairsOf l ∨ (b, a) ∈ pairsOf l := by
  intro l
  induction l with
  | nil => intro a b ha; cases ha
  | cons x xs ih =>
    intro a b ha hb hne
    rcases List.mem_cons.1 ha with rfl | ha'
    · have hb' : b ∈ xs := by
        rcases List.mem_cons.1 hb with rfl | h
        · exact absurd rfl hne
        · exact h
      exact Or.inl (List.mem_append_left _ (List.mem_map.2 ⟨b, hb', rfl⟩))
    · rcases List.mem_cons.1 hb with rfl | hb'
      · exact Or.inr (List.mem_append_left _ (List.mem_map.2 ⟨a, ha', rfl⟩))
      · exact (ih a b ha' hb' hne).imp (List.mem_append_right _)
          (List.mem_append_right _)

/-- Membership characterisation of the deduplication helper. -/
theorem mem_uniqueAux {α : Type} [DecidableEq α] (x : α) :
    ∀ (l : List α) (seen : List α),
      x ∈ uniqueAux seen l ↔ x ∈ l ∧ x ∉ seen := by
  intro l
  induction l with
  | nil => intro seen; simp [uniqueAux]
  | cons y ys ih =>
    intro seen
    rw [uniqueAux]
    by_cases hy : y ∈ seen
    · rw [if_pos hy, ih]
      constructor
      · rintro ⟨hx, hs⟩
        exact ⟨List.mem_cons_of_mem _ hx, hs⟩
      · rintro ⟨hx, hs⟩
        rcases List.mem_cons.1 hx with rfl | hx'
        · exact absurd hy hs
        · exact ⟨hx', hs⟩
    · rw [if_neg hy]
      constructor
      · intro hx
        rcases List.mem_cons.1 hx with rfl | hx'
        · exact ⟨List.mem_cons_self _ _, hy⟩
        · rcases (ih (y :: seen)).1 hx' with ⟨hys, hns⟩
          exact ⟨List.mem_cons_of_mem _ hys,
            fun hs => hns (List.mem_cons_of_mem _ hs)⟩
      · rintro ⟨hx, hs⟩
        rcases List.mem_cons.1 hx with rfl | hx'
        · exact List.mem_cons_self _ _
        · by_cases hxy : x = y
          · subst hxy
            exact List.mem_cons_self _ _
          · refine List.mem_cons_of_mem _ ((ih (y :: seen)).2 ⟨hx', fun h => ?_⟩)
            rcases List.mem_cons.1 h with h' | h'
            · exact hxy h'
            · exact hs h'

/-- Membership in `uniqueFirst` is membership in the original list. -/
theorem mem_uniqueFirst {α : Type} [DecidableEq α] (x : α) (l : List α) :
    x ∈ uniqueFirst l ↔ x ∈ l := by
  rw [uniqueFirst, mem_uniqueAux]
  simp

namespace MarkAgreements

/-- Text lengths agree along the `SameFrame` invariant. -/
theorem sameFrame_lenAt {R0 R : List Row} (h : SameFrame R0 R) (i : ℕ) :
    lenAt R i = lenAt R0 i := by
  unfold lenAt
  rw [(h.2 i).1]

/-- One Pass 2 pair step preserves the `SameFrame` invariant (the stitched
text of an in-order pair is the survivor's own text), only grows the
dropped set, and leaves the processed pair either separated below the
threshold or with its second row dropped. -/
theorem pass2Step_spec (τ : ℚ) (R0 : List Row) (st : List Row × List ℕ)
    (pr : ℕ × ℕ) (hsf : SameFrame R0 st.1)
    (hlen : lenAt R0 pr.2 ≤ lenAt R0 pr.1) :
    SameFrame R0 (pass2Step τ st pr).1 ∧
    (∀ d ∈ st.2, d ∈ (pass2Step τ st pr).2) ∧
    (pr.1 ∉ (pass2Step τ st pr).2 → pr.2 ∉ (pass2Step τ st pr).2 →
      overlap (getTokens (getRow R0 pr.1).text)
        (getTokens (getRow R0 pr.2).text) < τ) := by
  simp only [pass2Step]
  by_cases hskip : pr.1 ∈ st.2 ∨ pr.2 ∈ st.2
  · rw [if_pos hskip]
    refine ⟨hsf, fun d hd => hd, fun h1 h2 => ?_⟩
    rcases hskip with h | h
    · exact absurd h h1
    · exact absurd h h2
  rw [if_neg hskip]
  by_cases hov : τ ≤ overlap (getRow st.1 pr.1).tokens (getRow st.1 pr.2).tokens
  · rw [if_pos hov]
    refine ⟨?_, fun d hd => List.mem_cons_of_mem _ hd,
      fun _ h2 => absurd (List.mem_cons_self _ _) h2⟩
    obtain ⟨hL, hF⟩ := hsf
    have hstitch :
        stitch (getRow st.1 pr.1).text (getRow st.1 pr.2).text =
          (getRow st.1 pr.1).text := by
      unfold stitch
      rw [if_pos]
      show (getRow st.1 pr.2).text.length ≤ (getRow st.1 pr.1).text.length
      have e1 : (getRow st.1 pr.1).text = (getRow R0 pr.1).text := (hF pr.1).1
      have e2 : (getRow st.1 pr.2).text = (getRow R0 pr.2).text := (hF pr.2).1
      rw [e1, e2]
      exact hlen
    refine ⟨by rw [List.length_set]; exact hL, fun i => ?_⟩
    rw [getRow_set]
    split_ifs with hc
    · obtain ⟨heq, hi⟩ := hc
      subst heq
      refine ⟨?_, ?_, ?_, ?_⟩
      · show stitch (getRow st.1 pr.1).text (getRow st.1 pr.2).text =
          (getRow R0 pr.1).text
        rw [hstitch]
        exact (hF pr.1).1
      · exact (hF pr.1).2.1
      · exact (hF pr.1).2.2.1
      · rfl
    · exact hF i
  · rw [if_neg hov]
    refine ⟨hsf, fun d hd => hd, fun h1 h2 => ?_⟩
    have e1 : (getRow st.1 pr.1).tokens = getTokens (getRow R0 pr.1).text := by
      rw [(hsf.2 pr.1).2.2.2, (hsf.2 pr.1).1]
    have e2 : (getRow st.1 pr.2).tokens = getTokens (getRow R0 pr.2).text := by
      rw [(hsf.2 pr.2).2.2.2, (hsf.2 pr.2).1]
    rw [← e1, ← e2]
    exact lt_of_not_le hov

end MarkAgreements

namespace MarkAgreements

/-- Folding Pass 2 steps over a pair list whose pairs are in descending
text-length order preserves the invariant, only grows the dropped set, and
leaves every processed pair either separated below the threshold or with a
member dropped. -/
theorem processPairs_spec (τ : ℚ) (R0 : List Row) :
    ∀ (prs : List (ℕ × ℕ)) (st : List Row × List ℕ),
      SameFrame R0 st.1 →
      (∀ pr ∈ prs, lenAt R0 pr.2 ≤ lenAt R0 pr.1) →
      SameFrame R0 (prs.foldl (pass2Step τ) st).1 ∧
      (∀ d ∈ st.2, d ∈ (prs.foldl (pass2Step τ) st).2) ∧
      (∀ pr ∈ prs,
        pr.1 ∉ (prs.foldl (pass2Step τ) st).2 →
        pr.2 ∉ (prs.foldl (pass2Step τ) st).2 →
        overlap (getTokens (getRow R0 pr.1).text)
          (getTokens (getRow R0 pr.2).text) < τ) := by
  intro prs
  induction prs with
  | nil =>
    intro st hsf _
    exact ⟨hsf, fun d hd => hd, fun pr hpr => absurd hpr (List.not_mem_nil _)⟩
  | cons p ps ih =>
    intro st hsf hlen
    obtain ⟨hsf1, hmono1, hp⟩ :=
      pass2Step_spec τ R0 st p hsf (hlen p (List.mem_cons_self _ _))
    obtain ⟨hsf2, hmono2, hps⟩ :=
      ih (pass2Step τ st p) hsf1 (fun pr hpr => hlen pr (List.mem_cons_of_mem _ hpr))
    rw [List.foldl_cons]
    refine ⟨hsf2, fun d hd => hmono2 d (hmono1 d hd), ?_⟩
    intro pr hpr h1 h2
    rcases List.mem_cons.1 hpr with rfl | hpr'
    · exact hp (fun h => h1 (hmono2 _ h)) (fun h => h2 (hmono2 _ h))
    · exact hps pr hpr' h1 h2

/-- Processing one group leaves no two undropped group members with an
overlap reaching the threshold. -/
theorem processGroup_spec (τ : ℚ) (R0 : List Row) (st : List Row × List ℕ)
    (poss : List ℕ) (hsf : SameFrame R0 st.1) :
    SameFrame R0 (processGroup τ st poss).1 ∧
    (∀ d ∈ st.2, d ∈ (processGroup τ st poss).2) ∧
    (∀ i ∈ poss, ∀ j ∈ poss, i ≠ j →
      i ∉ (processGroup τ st poss).2 → j ∉ (processGroup τ st poss).2 →
      overlap (getTokens (getRow R0 i).text)
        (getTokens (getRow R0 j).text) < τ) := by
  have hsorted : (sortIdx st.1 poss).Pairwise
      (fun a b => lenAt R0 b ≤ lenAt R0 a) := by
    rw [sortIdx, List.pairwise_reverse]
    refine (sortByLen_sorted (lenAt st.1) poss).imp ?_
    intro a b hab
    rwa [sameFrame_lenAt hsf a, sameFrame_lenAt hsf b] at hab
  have hlenpairs : ∀ pr ∈ pairsOf (sortIdx st.1 poss),
      lenAt R0 pr.2 ≤ lenAt R0 pr.1 :=
    pairsOf_pairwise _ hsorted
  obtain ⟨hsf', hmono, hpairs⟩ :=
    processPairs_spec τ R0 (pairsOf (sortIdx st.1 poss)) st hsf hlenpairs
  have hperm : (sortIdx st.1 poss).Perm poss :=
    (List.reverse_perm _).trans (sortByLen_perm (lenAt st.1) poss)
  refine ⟨hsf', hmono, ?_⟩
  intro i hi j hj hne h1 h2
  rcases pairsOf_complete (sortIdx st.1 poss) i j (hperm.mem_iff.2 hi)
      (hperm.mem_iff.2 hj) hne with hin | hin
  · exact hpairs (i, j) hin h1 h2
  · have := hpairs (j, i) hin h2 h1
    rwa [overlap_comm] at this

/-- Folding Pass 2 group processing: after every group is processed, no two
undropped members of any processed group overlap at or above the
threshold. -/
theorem pass2Groups_spec (τ : ℚ) (R0 : List Row) :
    ∀ (gs : List (List ℕ)) (st : List Row × List ℕ),
      SameFrame R0 st.1 →
      SameFrame R0 (gs.foldl (processGroup τ) st).1 ∧
      (∀ d ∈ st.2, d ∈ (gs.foldl (processGroup τ) st).2) ∧
      (∀ g ∈ gs, ∀ i ∈ g, ∀ j ∈ g, i ≠ j →
        i ∉ (gs.foldl (processGroup τ) st).2 →
        j ∉ (gs.foldl (processGroup τ) st).2 →
        overlap (getTokens (getRow R0 i).text)
          (getTokens (getRow R0 j).text) < τ) := by
  intro gs
  induction gs with
  | nil =>
    intro st hsf
    exact ⟨hsf, fun d hd => hd, fun g hg => absurd hg (List.not_mem_nil _)⟩
  | cons g gs ih =>
    intro st hsf
    obtain ⟨hsf1, hmono1, hg⟩ := processGroup_spec τ R0 st g hsf
    obtain ⟨hsf2, hmono2, hgs⟩ := ih (processGroup τ st g) hsf1
    rw [List.foldl_cons]
    refine ⟨hsf2, fun d hd => hmono2 d (hmono1 d hd), ?_⟩
    intro g' hg' i hi j hj hne h1 h2
    rcases List.mem_cons.1 hg' with rfl | hg''
    · exact hg i hi j hj hne (fun h => h1 (hmono2 _ h)) (fun h => h2 (hmono2 _ h))
    · exact hgs g' hg'' i hi j hj hne h1 h2

end MarkAgreements

/-- C2: Pass 2 of the Fuzzy Merge Engine is idempotent — for every input
dataset with a coherent token cache and every threshold, the output of one
pass contains no two distinct rows of the same `(participant, code)` group
whose Jaccard token overlap reaches the threshold, so a second run performs
no further merges. -/
theorem C2_pass2_idempotent (τ : ℚ) (rows : List MarkAgreements.Row)
    (hcoh : ∀ r ∈ rows, r.tokens = getTokens r.text) :
    (MarkAgreements.pass2 τ rows).Pairwise fun r1 r2 =>
      r1.p = r2.p → r1.code = r2.code →
        overlap (getTokens r1.text) (getTokens r2.text) < τ := by
  have hsf0 : MarkAgreements.SameFrame rows rows := by
    refine ⟨rfl, fun i => ⟨rfl, rfl, rfl, ?_⟩⟩
    by_cases hi : i < rows.length
    · exact hcoh _ (MarkAgreements.getRow_mem rows i hi)
    · rw [MarkAgreements.getRow_of_length_le rows i (le_of_not_lt hi)]
      rfl
  obtain ⟨hsfF, _, hgroups⟩ :=
    MarkAgreements.pass2Groups_spec τ rows (MarkAgreements.groupsOf rows)
      (rows, []) hsf0
  simp only [MarkAgreements.pass2]
  rw [List.pairwise_filterMap]
  refine List.Pairwise.imp_of_mem ?_ (List.pairwise_lt_range rows.length)
  intro i j hi hj hij r1 h1 r2 h2 hp hc
  have hi' : i < rows.length := List.mem_range.1 hi
  have hj' : j < rows.length := List.mem_range.1 hj
  set st := (MarkAgreements.groupsOf rows).foldl
    (MarkAgreements.processGroup τ) (rows, ([] : List ℕ)) with hst
  by_cases hids : i ∈ st.2
  · rw [if_pos hids] at h1
    cases h1
  by_cases hjds : j ∈ st.2
  · rw [if_pos hjds] at h2
    cases h2
  rw [if_neg hids] at h1
  rw [if_neg hjds] at h2
  have e1 : r1 = MarkAgreements.getRow st.1 i := by
    cases h1
    rfl
  have e2 : r2 = MarkAgreements.getRow st.1 j := by
    cases h2
    rfl
  subst e1
  subst e2
  have hkey : MarkAgreements.keyOf (MarkAgreements.getRow rows j) =
      MarkAgreements.keyOf (MarkAgreements.getRow rows i) := by
    unfold MarkAgreements.keyOf
    have pi := (hsfF.2 i).2.1
    have pj := (hsfF.2 j).2.1
    have ci := (hsfF.2 i).2.2.1
    have cj := (hsfF.2 j).2.2.1
    rw [← pi, ← pj, ← ci, ← cj, hp, hc]
  have hkmem : MarkAgreements.keyOf (MarkAgreements.getRow rows i) ∈
      uniqueFirst (rows.map MarkAgreements.keyOf) :=
    (mem_uniqueFirst _ _).2 (List.mem_map.2
      ⟨MarkAgreements.getRow rows i, MarkAgreements.getRow_mem rows i hi', rfl⟩)
  have hgmem : ((List.range rows.length).filter fun x =>
      decide (MarkAgreements.keyOf (MarkAgreements.getRow rows x) =
        MarkAgreements.keyOf (MarkAgreements.getRow rows i))) ∈
      MarkAgreements.groupsOf rows :=
    List.mem_map.2 ⟨_, hkmem, rfl⟩
  have himem : i ∈ (List.range rows.length).filter fun x =>
      decide (MarkAgreements.keyOf (MarkAgreements.getRow rows x) =
        MarkAgreements.keyOf (MarkAgreements.getRow rows i)) :=
    List.mem_filter.2 ⟨hi, by simp⟩
  have hjmem : j ∈ (List.range rows.length).filter fun x =>
      decide (MarkAgreements.keyOf (MarkAgreements.getRow rows x) =
        MarkAgreements.keyOf (MarkAgreements.getRow rows i)) :=
    List.mem_filter.2 ⟨hj, by simp [hkey]⟩
  have hov := hgroups _ hgmem i himem j hjmem (Nat.ne_of_lt hij) hids hjds
  rw [(hsfF.2 i).1, (hsfF.2 j).1]
  exact hov

/-- Witness for C2 at a concrete two-row group with coherent caches. -/
theorem C2_pass2_idempotent_witness :
    (MarkAgreements.pass2 (mkRat 1 2)
      [MarkAgreements.c2wRowA, MarkAgreements.c2wRowB]).Pairwise fun r1 r2 =>
        r1.p = r2.p → r1.code = r2.code →
          overlap (getTokens r1.text) (getTokens r2.text) < mkRat 1 2 :=
  C2_pass2_idempotent (mkRat 1 2)
    [MarkAgreements.c2wRowA, MarkAgreements.c2wRowB] (by decide)
